import Mathlib

/-!
Verification of the secret-persistence subsystem of `platform_ds_toolkit`:
the plaintext JSON credential store (`credentials_store.py`), the encrypted
vault (`vault 2.py`) and the key manager (`key_manager.py`), shallowly
embedded in Lean.

Python dictionaries are modelled as insertion-ordered association lists with
string keys; JSON-compatible Python values are modelled by the inductive type
`PyVal`, whose `obj` constructor stands for an arbitrary Python object that is
not JSON serializable.  File contents are modelled abstractly by `FileData`
(a file that parses to a given value, a blank file, or unparseable text);
every store operation is a function from the on-disk state (`Option FileData`,
`none` meaning the file does not exist) to the new on-disk state paired with
the operation's outcome.
-/

/-- A Python value as handled by `credentials_store.py` / `vault 2.py`.
`dict` keeps insertion order, as Python dicts do.  `obj tag` stands for a
Python object that `json.dumps` cannot serialize. -/
inductive PyVal where
  | null
  | bool (b : Bool)
  | num (n : Int)
  | str (s : String)
  | list (xs : List PyVal)
  | dict (kvs : List (String × PyVal))
  | obj (tag : String)

/-- `isinstance(v, dict)`. -/
def PyVal.isDict : PyVal → Bool
  | .dict _ => true
  | _ => false

/-- Python dict lookup `d.get(k)` on an association list (keys are unique in
every dict built by the code; lookup returns the first match). -/
def lookupKv : List (String × PyVal) → String → Option PyVal
  | [], _ => none
  | (k2, v) :: rest, k => if k2 == k then some v else lookupKv rest k

/-- `k in d`: key membership (present even when the stored value is null). -/
def hasKeyB (kvs : List (String × PyVal)) (k : String) : Bool :=
  (lookupKv kvs k).isSome

/-- Python `d[k] = v`: replaces the value at the first (unique) occurrence of
`k`, keeping its position; appends at the end when `k` is absent. -/
def dictSet : List (String × PyVal) → String → PyVal → List (String × PyVal)
  | [], k, v => [(k, v)]
  | (k2, w) :: rest, k, v =>
      if k2 == k then (k2, v) :: rest else (k2, w) :: dictSet rest k v

/-- Python `del d[k]`. -/
def dictRemove : List (String × PyVal) → String → List (String × PyVal)
  | [], _ => []
  | (k2, w) :: rest, k => if k2 == k then rest else (k2, w) :: dictRemove rest k

/-- Python `base.update(patch)` / `{**base, **patch}`: sets every binding of
`patch`, in order, into `base`. -/
def dictUpdateAll (base : List (String × PyVal)) : List (String × PyVal) → List (String × PyVal)
  | [] => base
  | (k, v) :: rest => dictUpdateAll (dictSet base k v) rest

/-- Python `d.setdefault(k, v)`. -/
def setdefault (kvs : List (String × PyVal)) (k : String) (v : PyVal) :
    List (String × PyVal) :=
  if hasKeyB kvs k then kvs else kvs ++ [(k, v)]

mutual
/-- Whether `json.dumps` succeeds on the value (credentials_store.py line 213). -/
def serializable : PyVal → Bool
  | .obj _ => false
  | .list xs => serList xs
  | .dict kvs => serKvs kvs
  | _ => true
def serList : List PyVal → Bool
  | [] => true
  | x :: xs => serializable x && serList xs
def serKvs : List (String × PyVal) → Bool
  | [] => true
  | kv :: rest => serializable kv.2 && serKvs rest
end

/-- Top-level key uniqueness of an association list (holds for every dict a
Python program can build). -/
def distinctKeys : List (String × PyVal) → Bool
  | [] => true
  | kv :: rest => rest.all (fun kv2 => kv2.1 != kv.1) && distinctKeys rest

mutual
/-- Key uniqueness at every nesting level. -/
def noDupKeys : PyVal → Bool
  | .dict kvs => distinctKeys kvs && noDupVals kvs
  | .list xs => noDupElems xs
  | _ => true
def noDupVals : List (String × PyVal) → Bool
  | [] => true
  | kv :: rest => noDupKeys kv.2 && noDupVals rest
def noDupElems : List PyVal → Bool
  | [] => true
  | x :: xs => noDupKeys x && noDupElems xs
end

/-- Lexicographic comparison of character lists by code point. -/
def charListLe : List Char → List Char → Bool
  | [], _ => true
  | _ :: _, [] => false
  | a :: as, b :: bs =>
    if a.val < b.val then true
    else if b.val < a.val then false
    else charListLe as bs

/-- String comparison by Unicode code points, as Python's `<=` on `str`
(and as `sorted` and `json.dumps(..., sort_keys=True)` order keys). -/
def strLe (a b : String) : Bool := charListLe a.data b.data

/-- Insertion step of a stable sort of key/value pairs by key. -/
def insertByKey (a : String × PyVal) : List (String × PyVal) → List (String × PyVal)
  | [] => [a]
  | b :: rest => if strLe a.1 b.1 then a :: b :: rest else b :: insertByKey a rest

/-- Sorts an association list by key (the effect of `json.dumps(·, sort_keys=True)`
on one object level). -/
def sortByKey : List (String × PyVal) → List (String × PyVal)
  | [] => []
  | a :: rest => insertByKey a (sortByKey rest)

mutual
/-- The value as re-read after `json.dumps(v, sort_keys=True)`: every object's
keys become sorted, at every level; arrays keep their order. -/
def sortKeysRec : PyVal → PyVal
  | .dict kvs => .dict (sortByKey (sortKvs kvs))
  | .list xs => .list (sortList xs)
  | .null => .null
  | .bool b => .bool b
  | .num n => .num n
  | .str s => .str s
  | .obj t => .obj t
def sortKvs : List (String × PyVal) → List (String × PyVal)
  | [] => []
  | kv :: rest => (kv.1, sortKeysRec kv.2) :: sortKvs rest
def sortList : List PyVal → List PyVal
  | [] => []
  | x :: xs => sortKeysRec x :: sortList xs
end

mutual
/-- Python `==` on modelled values: dict comparison ignores insertion order. -/
def pyEq : PyVal → PyVal → Bool
  | .null, .null => true
  | .bool a, .bool b => a == b
  | .num a, .num b => a == b
  | .str a, .str b => a == b
  | .list xs, .list ys => pyEqList xs ys
  | .dict xs, .dict ys => (xs.length == ys.length) && pyEqDictSub xs ys
  | .obj a, .obj b => a == b
  | _, _ => false
def pyEqList : List PyVal → List PyVal → Bool
  | [], [] => true
  | x :: xs, y :: ys => pyEq x y && pyEqList xs ys
  | _, _ => false
def pyEqDictSub : List (String × PyVal) → List (String × PyVal) → Bool
  | [], _ => true
  | (k, v) :: rest, ys => pyEqLookup v k ys && pyEqDictSub rest ys
def pyEqLookup : PyVal → String → List (String × PyVal) → Bool
  | _, _, [] => false
  | v, k, (k2, w) :: ys => if k2 == k then pyEq v w else pyEqLookup v k ys
end

/-- Insertion step for `sorted(...)` over strings. -/
def insertStr (a : String) : List String → List String
  | [] => [a]
  | b :: rest => if strLe a b then a :: b :: rest else b :: insertStr a rest

/-- Python `sorted(xs)` for strings. -/
def sortStrings : List String → List String
  | [] => []
  | a :: rest => insertStr a (sortStrings rest)

/-- The contents of the store's backing file, as the store can observe them:
a file whose text parses (with `json.loads`) to the value `v`, an empty or
whitespace-only file, or non-blank text that is not valid JSON.  Equality of
`FileData` models byte equality of the file: an operation that does not write
leaves the `FileData` unchanged. -/
inductive FileData where
  | jsonFile (v : PyVal)
  | blank
  | garbage

/-- The typed failures of `credentials_store.py`.
`notFound` is `CredentialNotFoundError`, `alreadyExists` is
`CredentialExistsError`, `corruptStore` is `CorruptStoreError`,
`fileNotFound` is the `FileNotFoundError` raised when `auto_create` is off,
`valueError msg` is Python's `ValueError(msg)`, and `typeError` / `attrError`
stand for the `TypeError` / `AttributeError` Python raises when a document
member has an impossible shape. -/
inductive StoreErr where
  | notFound
  | alreadyExists
  | corruptStore
  | fileNotFound
  | typeError
  | attrError
  | valueError (msg : String)
deriving Repr, DecidableEq

/-- The document `_ensure_file_exists` writes when the file is absent
(credentials_store.py lines 75-78). -/
def initialDoc (now : Int) : PyVal :=
  .dict [("_meta", .dict [("created_at", .num now)]), ("credentials", .dict [])]

/-- `_load_json`'s structure normalisation (credentials_store.py lines 88-98):
the root must be an object; `_meta` and `credentials` are defaulted when
missing; `credentials` must be an object. -/
def loadNormalize (data : PyVal) : Except StoreErr PyVal :=
  match data with
  | .dict kvs =>
    let kvs1 := setdefault kvs "_meta" (.dict [])
    let kvs2 := setdefault kvs1 "credentials" (.dict [])
    match lookupKv kvs2 "credentials" with
    | some (.dict _) => .ok (.dict kvs2)
    | _ => .error .corruptStore
  | _ => .error .corruptStore

/-- `_load_json` (credentials_store.py lines 81-98).  A blank file is read as
`{}` (`json.loads(raw) if raw.strip() else {}`); unparseable text raises
`CorruptStoreError`. -/
def json_load : FileData → Except StoreErr PyVal
  | .garbage => .error .corruptStore
  | .blank => loadNormalize (.dict [])
  | .jsonFile v => loadNormalize v

/-- `CredentialStore._read_store` (lines 152-158): when the file is absent it
is created (`_ensure_file_exists`) if `auto_create` is set, else
`FileNotFoundError`; then the file is parsed.  Returns the on-disk state after
the call together with the parsed document. -/
def read_store (autoCreate : Bool) (now : Int) :
    Option FileData → Option FileData × Except StoreErr PyVal
  | none =>
    if autoCreate then
      (some (.jsonFile (initialDoc now)), json_load (.jsonFile (initialDoc now)))
    else (none, .error .fileNotFound)
  | some fd => (some fd, json_load fd)

/-- `store["credentials"]` on the document returned by `_load_json`, which
guarantees the member exists and is an object (the default branches are
unreachable on such documents). -/
def getCredsD (store : PyVal) : List (String × PyVal) :=
  match store with
  | .dict kvs =>
    match lookupKv kvs "credentials" with
    | some (.dict c) => c
    | _ => []
  | _ => []

/-- `json.loads(json.dumps(rec))` (credentials_store.py line 177): an identity
on parsed JSON values (a parsed document never holds a non-serializable value,
and a dump/load round trip preserves numbers, strings and insertion order). -/
def deepCopy (v : PyVal) : PyVal := v

/-- `rec["fields"].get(k)`: the binding of `k` inside the `fields` member of a
stored record (none when the record or its `fields` member is missing or not
an object). -/
def recFieldsLookup (rec : PyVal) (k : String) : Option PyVal :=
  match rec with
  | .dict rkvs =>
    match lookupKv rkvs "fields" with
    | some (.dict f) => lookupKv f k
    | _ => none
  | _ => none

/-- `CredentialStore.list_keys` (lines 163-165). -/
def list_keys (autoCreate : Bool) (now : Int) (st : Option FileData) :
    Option FileData × Except StoreErr (List String) :=
  match read_store autoCreate now st with
  | (st1, .error e) => (st1, .error e)
  | (st1, .ok store) => (st1, .ok (sortStrings ((getCredsD store).map Prod.fst)))

/-- `CredentialStore.has` (lines 167-169). -/
def hasOp (autoCreate : Bool) (now : Int) (key : String) (st : Option FileData) :
    Option FileData × Except StoreErr Bool :=
  match read_store autoCreate now st with
  | (st1, .error e) => (st1, .error e)
  | (st1, .ok store) => (st1, .ok (hasKeyB (getCredsD store) key))

/-- `CredentialStore.get` (lines 171-177).  `store["credentials"].get(key)`
yields Python `None` both when the key is absent and when its stored value is
JSON null, and both cases return the caller's default. -/
def getOp (autoCreate : Bool) (now : Int) (key : String) (dflt : Option PyVal)
    (st : Option FileData) : Option FileData × Except StoreErr (Option PyVal) :=
  match read_store autoCreate now st with
  | (st1, .error e) => (st1, .error e)
  | (st1, .ok store) =>
    match lookupKv (getCredsD store) key with
    | none => (st1, .ok dflt)
    | some .null => (st1, .ok dflt)
    | some rec => (st1, .ok (some (deepCopy rec)))

/-- `CredentialStore.require` (lines 179-183). -/
def requireOp (autoCreate : Bool) (now : Int) (key : String) (st : Option FileData) :
    Option FileData × Except StoreErr PyVal :=
  match getOp autoCreate now key none st with
  | (st1, .error e) => (st1, .error e)
  | (st1, .ok none) => (st1, .error .notFound)
  | (st1, .ok (some rec)) => (st1, .ok rec)

/-- The record `upsert` builds (credentials_store.py lines 205-209). -/
def upsertRecord (createdAt : PyVal) (now : Int) (fields : PyVal) : PyVal :=
  .dict [("created_at", createdAt), ("updated_at", .num now), ("fields", fields)]

/-- The whole document as it stands in memory right before a successful
`upsert` writes it: `creds[key] = record` then
`store["_meta"]["updated_at"] = now` (lines 217-218). -/
def upsertDoc (storeKvs metaKvs credsKvs : List (String × PyVal)) (key : String)
    (record : PyVal) (now : Int) : PyVal :=
  .dict (dictSet
    (dictSet storeKvs "credentials" (.dict (dictSet credsKvs key record)))
    "_meta" (.dict (dictSet metaKvs "updated_at" (.num now))))

/-- `CredentialStore.upsert` (lines 185-220), in source order: the
`isinstance(fields, dict)` guard, `_read_store` (which may create the file),
the `overwrite` check, preservation of an existing `created_at`, the
`json.dumps(record)` fail-fast serializability check, the in-memory update of
`credentials` and `_meta`, the atomic write of the whole document (with keys
sorted by `json.dumps(..., sort_keys=True)`), and finally `return
self.get(key)`, which re-reads the file just written. -/
def upsert (autoCreate : Bool) (now : Int) (key : String) (fields : PyVal)
    (overwrite : Bool) (st : Option FileData) :
    Option FileData × Except StoreErr (Option PyVal) :=
  if !fields.isDict then (st, .error (.valueError "fields must be a dict")) else
  match read_store autoCreate now st with
  | (st1, .error e) => (st1, .error e)
  | (st1, .ok store) =>
    match store with
    | .dict storeKvs =>
      let creds := getCredsD store
      if hasKeyB creds key && !overwrite then (st1, .error .alreadyExists) else
      match (lookupKv creds key).getD (.dict []) with
      | .dict exKvs =>
        let createdAt := (lookupKv exKvs "created_at").getD (.num now)
        let record := upsertRecord createdAt now fields
        if !serializable record then
          (st1, .error (.valueError "fields contains non-JSON-serializable values"))
        else
          let store1 := dictSet storeKvs "credentials" (.dict (dictSet creds key record))
          match lookupKv store1 "_meta" with
          | some (.dict metaKvs) =>
            let store2 := dictSet store1 "_meta" (.dict (dictSet metaKvs "updated_at" (.num now)))
            getOp autoCreate now key none (some (.jsonFile (sortKeysRec (.dict store2))))
          | _ => (st1, .error .typeError)
      | _ => (st1, .error .attrError)
    | _ => (st1, .error .typeError)

/-- `CredentialStore.delete` (lines 222-231). -/
def deleteOp (autoCreate : Bool) (now : Int) (key : String) (missingOk : Bool)
    (st : Option FileData) : Option FileData × Except StoreErr Unit :=
  match read_store autoCreate now st with
  | (st1, .error e) => (st1, .error e)
  | (st1, .ok store) =>
    match store with
    | .dict storeKvs =>
      let creds := getCredsD store
      if !hasKeyB creds key then
        if missingOk then (st1, .ok ()) else (st1, .error .notFound)
      else
        let store1 := dictSet storeKvs "credentials" (.dict (dictRemove creds key))
        match lookupKv store1 "_meta" with
        | some (.dict metaKvs) =>
          let store2 := dictSet store1 "_meta" (.dict (dictSet metaKvs "updated_at" (.num now)))
          (some (.jsonFile (sortKeysRec (.dict store2))), .ok ())
        | _ => (st1, .error .typeError)
    | _ => (st1, .error .typeError)

/-- `CredentialStore.update_fields` (lines 233-242): `require`, then a shallow
`fields.update(patch)`, then `upsert(key, fields, overwrite=True)` against the
state left by `require`. -/
def update_fields (autoCreate : Bool) (now : Int) (key : String)
    (patch : List (String × PyVal)) (st : Option FileData) :
    Option FileData × Except StoreErr (Option PyVal) :=
  match requireOp autoCreate now key st with
  | (st1, .error e) => (st1, .error e)
  | (st1, .ok rec) =>
    match rec with
    | .dict rkvs =>
      let fields0 := (lookupKv rkvs "fields").getD (.dict [])
      let fields1 := match fields0 with
        | .dict f => f
        | _ => ([] : List (String × PyVal))
      upsert autoCreate now key (.dict (dictUpdateAll fields1 patch)) true st1
    | _ => (st1, .error .attrError)

/-- Bytes a vault file can hold: a valid Fernet token produced under `key`
whose plaintext is `json.dumps(doc)`, or bytes that are not a valid token
under the key that reads them (truncated, corrupted, bit-flipped, or made
with a different key's token counted via its own `key` index).  That a
tampered token is no longer valid is the authenticated-encryption guarantee
of Fernet, taken as the model of the cipher. -/
inductive CipherText where
  | token (key : Nat) (doc : PyVal)
  | junk (bytes : String)

/-- The typed failures of `vault 2.py` / `key_manager.py`.
`decryptionFailed` is `cryptography.fernet.InvalidToken`; `notFound` is the
`ValueError("No credentials for ...")` of `load_credentials`; `keyNotFound`
and `keyAlreadyExists` are the key manager's `FileNotFoundError` /
`FileExistsError`; `typeError` / `attrError` stand for the `TypeError` /
`AttributeError` Python raises when a decrypted document has an impossible
shape. -/
inductive VaultErr where
  | decryptionFailed
  | notFound (path : String)
  | keyNotFound
  | keyAlreadyExists
  | typeError
  | attrError
deriving Repr, DecidableEq

/-- `Fernet(key).decrypt`: succeeds exactly on tokens made under the same key;
anything else raises `InvalidToken` (modelled as `none`). -/
def decrypt (key : Nat) : CipherText → Option PyVal
  | .token k doc => if key = k then some doc else none
  | .junk _ => none

/-- `Fernet(key).encrypt(json.dumps(doc).encode())`. -/
def encrypt (key : Nat) (doc : PyVal) : CipherText := .token key doc

/-- `key_manager.load_key` (key_manager.py lines 19-22): the key-file state is
`Option Nat` (`none`: no key file). -/
def load_key : Option Nat → Except VaultErr Nat
  | none => .error .keyNotFound
  | some k => .ok k

/-- `key_manager.generate_key` (lines 13-17): fails if a key file already
exists, otherwise writes a fresh key (supplied here as `fresh`). -/
def generate_key (fresh : Nat) : Option Nat → Except VaultErr (Option Nat)
  | some _ => .error .keyAlreadyExists
  | none => .ok (some fresh)

/-- `CredentialVault.__init__` (vault 2.py lines 19-21): loads the key via the
key manager; failure propagates. -/
def vaultInit (keyFile : Option Nat) : Except VaultErr Nat := load_key keyFile

/-- `CredentialVault._load` (lines 23-26): missing file means an empty
document; otherwise decrypt-and-parse, with `InvalidToken` propagating. -/
def vaultLoad (key : Nat) : Option CipherText → Except VaultErr PyVal
  | none => .ok (.dict [])
  | some c =>
    match decrypt key c with
    | none => .error .decryptionFailed
    | some doc => .ok doc

/-- `CredentialVault._write` (lines 28-30): encrypts the whole document and
writes the ciphertext straight to the vault path with `Path.write_bytes`
(no temporary file, no atomic replace). -/
def vaultWrite (key : Nat) (doc : PyVal) : Option CipherText :=
  some (encrypt key doc)

/-- `CredentialVault.save_credentials` (lines 32-38): read-modify-write of the
whole document; the entry's metadata is
`{"created_at": datetime.utcnow().isoformat(), **(metadata or {})}`,
so the stamp is taken on every save and caller metadata is layered on top. -/
def save_credentials (key : Nat) (now : String) (path : String) (secrets : PyVal)
    (metadata : Option (List (String × PyVal))) (st : Option CipherText) :
    Except VaultErr (Option CipherText) :=
  match vaultLoad key st with
  | .error e => .error e
  | .ok data =>
    match data with
    | .dict dkvs =>
      let meta := dictUpdateAll [("created_at", .str now)] (metadata.getD [])
      let entry := PyVal.dict [("secrets", secrets), ("metadata", .dict meta)]
      .ok (vaultWrite key (.dict (dictSet dkvs path entry)))
    | _ => .error .typeError

/-- Python `pattern in s` on strings: substring containment. -/
def strContains (s pat : String) : Bool :=
  if pat = "" then true else (s.splitOn pat).length ≥ 2

/-- `CredentialVault.load_credentials` (lines 40-44): decrypt, then
`if path not in data: raise ValueError(...)`, then `data[path]["secrets"]`.
The non-dict branches mirror what Python's `in` and subscription do on each
shape of decrypted document (all unreachable for documents this code wrote). -/
def load_credentials (key : Nat) (path : String) (st : Option CipherText) :
    Except VaultErr PyVal :=
  match vaultLoad key st with
  | .error e => .error e
  | .ok data =>
    match data with
    | .dict dkvs =>
      match lookupKv dkvs path with
      | none => .error (.notFound path)
      | some (.dict ekvs) =>
        match lookupKv ekvs "secrets" with
        | some s => .ok s
        | none => .error .typeError
      | some _ => .error .typeError
    | .list xs =>
      if xs.any (fun v => pyEq v (.str path)) then .error .typeError
      else .error (.notFound path)
    | .str s =>
      if strContains s path then .error .typeError else .error (.notFound path)
    | _ => .error .typeError

/-- `CredentialVault.list_paths` (lines 46-47): `sorted(self._load().keys())`. -/
def list_paths (key : Nat) (st : Option CipherText) : Except VaultErr (List String) :=
  match vaultLoad key st with
  | .error e => .error e
  | .ok data =>
    match data with
    | .dict dkvs => .ok (sortStrings (dkvs.map Prod.fst))
    | _ => .error .attrError

/-- A snapshot of the two files a writer touches: the destination file and the
temporary file, each `none` when absent.  Partial contents stand for the bytes
present on stable storage if the process dies at that instant. -/
structure FsView where
  dest : Option String
  tmp : Option String
deriving Repr, DecidableEq

/-- Every filesystem state observable during `_atomic_write_json(path, data)`
(credentials_store.py lines 101-121) when the destination holds `old` and the
serialized payload is `payload`: after `mkdir` (destination untouched), after
`mkstemp` and after each partially flushed chunk of the temporary file
(`payload.take i`), after `fsync`, and after the atomic `os.replace`.  The
best-effort cleanup in the `finally` block only removes the temporary file and
re-yields one of these states. -/
def atomicWriteStates (old : Option String) (payload : String) : List FsView :=
  ⟨old, none⟩ ::
  (((List.range (payload.length + 1)).map (fun i => ⟨old, some (payload.take i)⟩)) ++
   [⟨old, some payload⟩,
    ⟨some payload, none⟩])

/-- Every filesystem state observable during `Path.write_bytes` as used by
`CredentialVault._write` (vault 2.py lines 28-30): the file is opened for
writing in place (truncating it to empty) and the ciphertext is written
directly to the destination, so every partially flushed state is visible at
the destination path itself. -/
def plainWriteStates (old : Option String) (payload : String) : List FsView :=
  ⟨old, none⟩ ::
  ((List.range (payload.length + 1)).map (fun i => ⟨some (payload.take i), none⟩))

/-- A writer is atomic-replace safe when every state observable during the
write shows the destination either with its previous contents or with the
complete new payload — never a half-written document. -/
def writerAtomic (w : Option String → String → List FsView) : Prop :=
  ∀ old payload s, s ∈ w old payload → s.dest = old ∨ s.dest = some payload

/-- Claim C1 as stated: every write of the subsystem — the plaintext store's
`_atomic_write_json` (used by `upsert` and `delete`) and the vault's `_write`
(used by `save_credentials`) — leaves the previously durable document intact
under any mid-write failure. -/
def C1claim : Prop :=
  writerAtomic atomicWriteStates ∧ writerAtomic plainWriteStates

/-- File contents that claim C2 calls corrupt: unparseable as JSON (which
includes a blank file, since `json.loads("")` raises) or structurally invalid
(root not an object, or an existing `credentials` member not an object). -/
def claimCorrupt : FileData → Bool
  | .garbage => true
  | .blank => true
  | .jsonFile v =>
    match v with
    | .dict kvs =>
      match lookupKv kvs "credentials" with
      | some c => !c.isDict
      | none => false
    | _ => true

/-- File contents on which the code actually raises `CorruptStoreError`: like
`claimCorrupt`, but a blank file is carved out (the code reads it as `{}`). -/
def structurallyCorrupt : FileData → Bool
  | .garbage => true
  | .blank => false
  | .jsonFile v =>
    match v with
    | .dict kvs =>
      match lookupKv kvs "credentials" with
      | some c => !c.isDict
      | none => false
    | _ => true

/-- Claim C2 as stated: on every corrupt backing file (in the claim's sense,
including blank files, which are unparseable JSON), every reading operation
fails with `CorruptStore` and leaves the file unchanged. -/
def C2claim : Prop :=
  ∀ (autoCreate : Bool) (now : Int) (fd : FileData) (key : String)
    (fkvs patch : List (String × PyVal)) (overwrite missingOk : Bool)
    (dflt : Option PyVal),
    claimCorrupt fd = true →
    list_keys autoCreate now (some fd) = (some fd, .error .corruptStore) ∧
    hasOp autoCreate now key (some fd) = (some fd, .error .corruptStore) ∧
    getOp autoCreate now key dflt (some fd) = (some fd, .error .corruptStore) ∧
    requireOp autoCreate now key (some fd) = (some fd, .error .corruptStore) ∧
    upsert autoCreate now key (.dict fkvs) overwrite (some fd) =
      (some fd, .error .corruptStore) ∧
    update_fields autoCreate now key patch (some fd) = (some fd, .error .corruptStore) ∧
    deleteOp autoCreate now key missingOk (some fd) = (some fd, .error .corruptStore)

/-- Claim C3 as stated: an `upsert` whose `fields` is a dict that is not JSON
serializable fails with the validation `ValueError` and touches no file at
all — in particular the on-disk state is exactly what it was, even when the
backing file did not exist yet. -/
def C3claim : Prop :=
  ∀ (autoCreate : Bool) (now : Int) (key : String) (fields : PyVal)
    (overwrite : Bool) (st : Option FileData),
    fields.isDict = true → serializable fields = false →
    upsert autoCreate now key fields overwrite st =
      (st, .error (.valueError "fields contains non-JSON-serializable values"))

/-- The `metadata.created_at` of the vault entry at `path`, read back through
`_load` (none when the file, entry or member is missing or ill-shaped). -/
def entryCreatedAt (key : Nat) (path : String) (st : Option CipherText) : Option PyVal :=
  match vaultLoad key st with
  | .ok (.dict dkvs) =>
    match lookupKv dkvs path with
    | some (.dict ekvs) =>
      match lookupKv ekvs "metadata" with
      | some (.dict mkvs) => lookupKv mkvs "created_at"
      | _ => none
    | _ => none
  | _ => none

/-- Claim C4 as stated: `metadata.created_at` is stamped once, at the first
`save_credentials` for a path, and any later save to the same path leaves it
unchanged. -/
def C4claim : Prop :=
  ∀ (key : Nat) (path t1 t2 : String) (s1 s2 : PyVal)
    (st st1 st2 : Option CipherText),
    save_credentials key t1 path s1 none st = .ok st1 →
    save_credentials key t2 path s2 none st1 = .ok st2 →
    entryCreatedAt key path st2 = entryCreatedAt key path st1

/-! ### Association-list lemmas -/

theorem lookupKv_dictSet_self (l : List (String × PyVal)) (k : String) (v : PyVal) :
    lookupKv (dictSet l k v) k = some v := by
  induction l with
  | nil => simp [dictSet, lookupKv]
  | cons kv rest ih =>
    obtain ⟨k2, w⟩ := kv
    by_cases h : k2 = k
    · simp [dictSet, lookupKv, h]
    · simp [dictSet, lookupKv, h, ih]

theorem lookupKv_dictSet_other (l : List (String × PyVal)) (k j : String) (v : PyVal)
    (h : j ≠ k) : lookupKv (dictSet l k v) j = lookupKv l j := by
  induction l with
  | nil => simp [dictSet, lookupKv, Ne.symm h]
  | cons kv rest ih =>
    obtain ⟨k2, w⟩ := kv
    by_cases h2 : k2 = k
    · subst h2
      simp [dictSet, lookupKv, Ne.symm h]
    · simp [dictSet, lookupKv, h2]
      by_cases h3 : k2 = j <;> simp [h3, ih]

theorem mem_of_lookupKv {l : List (String × PyVal)} {k : String} {v : PyVal}
    (h : lookupKv l k = some v) : (k, v) ∈ l := by
  induction l with
  | nil => simp [lookupKv] at h
  | cons kv rest ih =>
    obtain ⟨k2, w⟩ := kv
    by_cases h2 : k2 = k
    · subst h2
      simp [lookupKv] at h
      simp [h]
    · simp [lookupKv, h2] at h
      exact List.mem_cons_of_mem _ (ih h)

theorem lookupKv_eq_none_iff (l : List (String × PyVal)) (k : String) :
    lookupKv l k = none ↔ ∀ v, (k, v) ∉ l := by
  induction l with
  | nil => simp [lookupKv]
  | cons kv rest ih =>
    obtain ⟨k2, w⟩ := kv
    by_cases h2 : k2 = k
    · subst h2
      constructor
      · intro h
        simp [lookupKv] at h
      · intro h
        exact absurd (List.mem_cons_self (k2, w) rest) (h w)
    · have hstep : lookupKv ((k2, w) :: rest) k = lookupKv rest k := by
        simp [lookupKv, h2]
      rw [hstep, ih]
      constructor
      · intro h v hm
        rcases List.mem_cons.mp hm with hh | hh
        · exact h2 (congrArg Prod.fst hh).symm
        · exact h v hh
      · intro h v hm
        exact h v (List.mem_cons_of_mem _ hm)

theorem lookupKv_of_mem_distinct {l : List (String × PyVal)} {k : String} {v : PyVal}
    (hd : distinctKeys l = true) (hm : (k, v) ∈ l) : lookupKv l k = some v := by
  induction l with
  | nil => simp at hm
  | cons kv rest ih =>
    obtain ⟨k2, w⟩ := kv
    simp [distinctKeys, List.all_eq_true] at hd
    rcases List.mem_cons.mp hm with h | h
    · obtain ⟨h1, h2⟩ := Prod.mk.injEq .. ▸ h
      subst h1; subst h2
      simp [lookupKv]
    · have hne : k2 ≠ k := by
        intro hk
        subst hk
        exact absurd rfl (hd.1 k2 v h)
      simp [lookupKv, hne]
      exact ih hd.2 h

theorem lookupKv_eq_none_of_allNe {l : List (String × PyVal)} {k : String}
    (h : l.all (fun kv => kv.1 != k) = true) : lookupKv l k = none := by
  induction l with
  | nil => rfl
  | cons kv rest ih =>
    obtain ⟨k2, w⟩ := kv
    simp [List.all_eq_true] at h
    simp [lookupKv, h.1]
    exact ih (by simp [List.all_eq_true]; exact fun a b hm => h.2 a b hm)

theorem distinctKeys_dictSet (l : List (String × PyVal)) (k : String) (v : PyVal)
    (hd : distinctKeys l = true) : distinctKeys (dictSet l k v) = true := by
  induction l with
  | nil => simp [dictSet, distinctKeys]
  | cons kv rest ih =>
    obtain ⟨k2, w⟩ := kv
    simp [distinctKeys, List.all_eq_true] at hd
    by_cases h2 : k2 = k
    · subst h2
      simp [dictSet, distinctKeys, List.all_eq_true]
      exact ⟨fun a b hm => hd.1 a b hm, hd.2⟩
    · simp [dictSet, h2, distinctKeys, List.all_eq_true]
      refine ⟨?_, ih hd.2⟩
      intro a b hm
      rcases (by simpa [dictSet] using hm : (a, b) ∈ dictSet rest k v) with hm2
      -- membership in dictSet: either it was there or it is the new (k, v)
      have : (a, b) ∈ rest ∨ a = k := by
        clear ih hd hm
        induction rest with
        | nil => simp [dictSet] at hm2; simp [hm2]
        | cons kv3 rest3 ih3 =>
          obtain ⟨k3, w3⟩ := kv3
          by_cases h3 : k3 = k
          · subst h3
            simp [dictSet] at hm2
            rcases hm2 with h | h
            · simp [h]
            · simp [h]
          · simp [dictSet, h3] at hm2
            rcases hm2 with h | h
            · simp [h]
            · rcases ih3 h with h4 | h4
              · simp [h4]
              · simp [h4]
      rcases this with h4 | h4
      · exact hd.1 a b h4
      · subst h4; exact fun hh => h2 hh.symm

theorem mem_insertByKey {x a : String × PyVal} {l : List (String × PyVal)} :
    x ∈ insertByKey a l ↔ x = a ∨ x ∈ l := by
  induction l with
  | nil => simp [insertByKey]
  | cons b rest ih =>
    by_cases h : strLe a.1 b.1 = true
    · simp [insertByKey, h]
    · simp [insertByKey, h, ih]
      tauto

theorem mem_sortByKey {x : String × PyVal} {l : List (String × PyVal)} :
    x ∈ sortByKey l ↔ x ∈ l := by
  induction l with
  | nil => simp [sortByKey]
  | cons a rest ih =>
    simp [sortByKey, mem_insertByKey, ih]

theorem length_insertByKey (a : String × PyVal) (l : List (String × PyVal)) :
    (insertByKey a l).length = l.length + 1 := by
  induction l with
  | nil => simp [insertByKey]
  | cons b rest ih =>
    by_cases h : strLe a.1 b.1 = true
    · simp [insertByKey, h]
    · simp [insertByKey, h, ih]

theorem length_sortByKey (l : List (String × PyVal)) :
    (sortByKey l).length = l.length := by
  induction l with
  | nil => rfl
  | cons a rest ih => simp [sortByKey, length_insertByKey, ih]

theorem length_sortKvs (l : List (String × PyVal)) :
    (sortKvs l).length = l.length := by
  induction l with
  | nil => rfl
  | cons a rest ih => simp [sortKvs, ih]

theorem mem_sortKvs {kv : String × PyVal} {l : List (String × PyVal)} :
    kv ∈ sortKvs l ↔ ∃ v0, (kv.1, v0) ∈ l ∧ kv.2 = sortKeysRec v0 := by
  induction l with
  | nil => simp [sortKvs]
  | cons a rest ih =>
    obtain ⟨ka, va⟩ := a
    simp [sortKvs, ih]
    constructor
    · intro h
      rcases h with h | ⟨v0, hm, hv⟩
      · exact ⟨va, Or.inl ⟨(congrArg Prod.fst h : kv.1 = ka), rfl⟩,
          (congrArg Prod.snd h : kv.2 = sortKeysRec va)⟩
      · exact ⟨v0, Or.inr hm, hv⟩
    · intro ⟨v0, hm, hv⟩
      rcases hm with ⟨h1, h2⟩ | hm
      · subst h2
        left
        obtain ⟨kvk, kvv⟩ := kv
        simp only at h1 hv
        subst h1; subst hv; rfl
      · exact Or.inr ⟨v0, hm, hv⟩

/-- Looking a key up after a `sort_keys=True` dump/load round trip gives the
recursively sorted form of the original value (keys unique at that level). -/
theorem lookupKv_sorted (l : List (String × PyVal)) (k : String)
    (hd : distinctKeys l = true) :
    lookupKv (sortByKey (sortKvs l)) k = Option.map sortKeysRec (lookupKv l k) := by
  cases hlk : lookupKv l k with
  | some v =>
    have hm : (k, v) ∈ l := mem_of_lookupKv hlk
    have hm2 : ((k, sortKeysRec v) : String × PyVal) ∈ sortByKey (sortKvs l) := by
      rw [mem_sortByKey, mem_sortKvs]
      exact ⟨v, hm, rfl⟩
    cases hlk2 : lookupKv (sortByKey (sortKvs l)) k with
    | none =>
      rw [lookupKv_eq_none_iff] at hlk2
      exact absurd hm2 (hlk2 (sortKeysRec v))
    | some w =>
      have hm3 : (k, w) ∈ sortByKey (sortKvs l) := mem_of_lookupKv hlk2
      rw [mem_sortByKey, mem_sortKvs] at hm3
      obtain ⟨v0, hm0, hw⟩ := hm3
      have : lookupKv l k = some v0 := lookupKv_of_mem_distinct hd hm0
      rw [hlk] at this
      cases this
      simpa using hw
  | none =>
    have : lookupKv (sortByKey (sortKvs l)) k = none := by
      rw [lookupKv_eq_none_iff]
      intro v hm
      rw [mem_sortByKey, mem_sortKvs] at hm
      obtain ⟨v0, hm0, _⟩ := hm
      rw [lookupKv_eq_none_iff] at hlk
      exact hlk v0 hm0
    simp [this]

theorem lookupKv_append_single (l : List (String × PyVal)) (j k : String)
    (v : PyVal) (h : k ≠ j) : lookupKv (l ++ [(j, v)]) k = lookupKv l k := by
  induction l with
  | nil => simp [lookupKv, Ne.symm h]
  | cons kv rest ih =>
    obtain ⟨k2, w⟩ := kv
    by_cases h2 : k2 = k
    · simp [lookupKv, h2]
    · simp [lookupKv, h2, ih]

theorem lookupKv_setdefault_other (l : List (String × PyVal)) (j k : String)
    (v : PyVal) (h : k ≠ j) : lookupKv (setdefault l j v) k = lookupKv l k := by
  unfold setdefault
  by_cases hh : hasKeyB l j
  · simp [hh]
  · simp [hh, lookupKv_append_single l j k v h]

theorem lookupKv_setdefault_self (l : List (String × PyVal)) (j : String) (v : PyVal) :
    lookupKv (setdefault l j v) j =
      match lookupKv l j with
      | some w => some w
      | none => some v := by
  unfold setdefault hasKeyB
  cases hlk : lookupKv l j with
  | some w => simp [hlk]
  | none =>
    simp [hlk]
    induction l with
    | nil => simp [lookupKv]
    | cons kv rest ih =>
      obtain ⟨k2, w2⟩ := kv
      by_cases h2 : k2 = j
      · simp [lookupKv, h2] at hlk
      · simp [lookupKv, h2] at hlk ⊢
        exact ih hlk

theorem lookupKv_dictUpdateAll (base patch : List (String × PyVal)) (k : String)
    (hd : distinctKeys patch = true) :
    lookupKv (dictUpdateAll base patch) k =
      match lookupKv patch k with
      | some v => some v
      | none => lookupKv base k := by
  induction patch generalizing base with
  | nil => simp [dictUpdateAll, lookupKv]
  | cons kv rest ih =>
    obtain ⟨k0, v0⟩ := kv
    simp [distinctKeys, List.all_eq_true] at hd
    by_cases hk : k0 = k
    · subst hk
      have hrest : lookupKv rest k0 = none :=
        lookupKv_eq_none_of_allNe (by
          simp [List.all_eq_true]
          exact fun a b hm => hd.1 a b hm)
      simp [dictUpdateAll, lookupKv, ih _ hd.2, hrest, lookupKv_dictSet_self]
    · simp [dictUpdateAll, lookupKv, hk, ih _ hd.2]
      cases lookupKv rest k with
      | some v => simp
      | none => simp [lookupKv_dictSet_other _ _ _ _ (fun hh : k = k0 => hk hh.symm)]

theorem serKvs_of_lookup {l : List (String × PyVal)} {k : String} {v : PyVal}
    (hs : serKvs l = true) (hl : lookupKv l k = some v) : serializable v = true := by
  induction l with
  | nil => simp [lookupKv] at hl
  | cons kv rest ih =>
    obtain ⟨k2, w⟩ := kv
    simp [serKvs] at hs
    by_cases h2 : k2 = k
    · simp [lookupKv, h2] at hl
      subst hl
      exact hs.1
    · simp [lookupKv, h2] at hl
      exact ih hs.2 hl

theorem noDupVals_of_lookup {l : List (String × PyVal)} {k : String} {v : PyVal}
    (hs : noDupVals l = true) (hl : lookupKv l k = some v) : noDupKeys v = true := by
  induction l with
  | nil => simp [lookupKv] at hl
  | cons kv rest ih =>
    obtain ⟨k2, w⟩ := kv
    simp [noDupVals] at hs
    by_cases h2 : k2 = k
    · simp [lookupKv, h2] at hl
      subst hl
      exact hs.1
    · simp [lookupKv, h2] at hl
      exact ih hs.2 hl

theorem noDupVals_of_mem {l : List (String × PyVal)} {kv : String × PyVal}
    (hs : noDupVals l = true) (hm : kv ∈ l) : noDupKeys kv.2 = true := by
  induction l with
  | nil => simp at hm
  | cons a rest ih =>
    simp [noDupVals] at hs
    rcases List.mem_cons.mp hm with h | h
    · subst h; exact hs.1
    · exact ih hs.2 h

theorem serKvs_dictSet {l : List (String × PyVal)} {k : String} {v : PyVal}
    (hl : serKvs l = true) (hv : serializable v = true) :
    serKvs (dictSet l k v) = true := by
  induction l with
  | nil => simp [dictSet, serKvs, hv]
  | cons kv rest ih =>
    obtain ⟨k2, w⟩ := kv
    simp [serKvs] at hl
    by_cases h2 : k2 = k
    · simp [dictSet, h2, serKvs, hv, hl.2]
    · simp [dictSet, h2, serKvs, hl.1, ih hl.2]

theorem serKvs_dictUpdateAll {base patch : List (String × PyVal)}
    (hb : serKvs base = true) (hp : serKvs patch = true) :
    serKvs (dictUpdateAll base patch) = true := by
  induction patch generalizing base with
  | nil => simpa [dictUpdateAll] using hb
  | cons kv rest ih =>
    obtain ⟨k0, v0⟩ := kv
    simp [serKvs] at hp
    exact ih (serKvs_dictSet hb hp.1) hp.2

theorem distinctKeys_dictUpdateAll {base patch : List (String × PyVal)}
    (hb : distinctKeys base = true) :
    distinctKeys (dictUpdateAll base patch) = true := by
  induction patch generalizing base with
  | nil => simpa [dictUpdateAll] using hb
  | cons kv rest ih =>
    obtain ⟨k0, v0⟩ := kv
    exact ih (distinctKeys_dictSet base k0 v0 hb)

theorem noDupVals_dictSet {l : List (String × PyVal)} {k : String} {v : PyVal}
    (hl : noDupVals l = true) (hv : noDupKeys v = true) :
    noDupVals (dictSet l k v) = true := by
  induction l with
  | nil => simp [dictSet, noDupVals, hv]
  | cons kv rest ih =>
    obtain ⟨k2, w⟩ := kv
    simp [noDupVals] at hl
    by_cases h2 : k2 = k
    · simp [dictSet, h2, noDupVals, hv, hl.2]
    · simp [dictSet, h2, noDupVals, hl.1, ih hl.2]

theorem noDupVals_dictUpdateAll {base patch : List (String × PyVal)}
    (hb : noDupVals base = true) (hp : noDupVals patch = true) :
    noDupVals (dictUpdateAll base patch) = true := by
  induction patch generalizing base with
  | nil => simpa [dictUpdateAll] using hb
  | cons kv rest ih =>
    obtain ⟨k0, v0⟩ := kv
    simp [noDupVals] at hp
    exact ih (noDupVals_dictSet hb hp.1) hp.2

/-! ### `pyEq` of a value and its `sort_keys=True` round trip -/

theorem pyEqLookup_eq (v : PyVal) (k : String) (ys : List (String × PyVal)) :
    pyEqLookup v k ys =
      match lookupKv ys k with
      | some w => pyEq v w
      | none => false := by
  induction ys with
  | nil => simp [pyEqLookup, lookupKv]
  | cons kv rest ih =>
    obtain ⟨k2, w⟩ := kv
    by_cases h2 : k2 = k
    · simp [pyEqLookup, lookupKv, h2]
    · simp [pyEqLookup, lookupKv, h2, ih]

theorem pyEqDictSub_eq_all (l ys : List (String × PyVal)) :
    pyEqDictSub l ys = true ↔ ∀ kv ∈ l, pyEqLookup kv.2 kv.1 ys = true := by
  induction l with
  | nil => simp [pyEqDictSub]
  | cons kv rest ih =>
    obtain ⟨k, v⟩ := kv
    simp [pyEqDictSub, ih]

theorem pyEqList_of_forall {xs : List PyVal}
    (h : ∀ x ∈ xs, pyEq (sortKeysRec x) x = true) :
    pyEqList (sortList xs) xs = true := by
  induction xs with
  | nil => simp [sortList, pyEqList]
  | cons x rest ih =>
    have hx := h x (List.mem_cons_self x rest)
    have hr := ih fun y hy => h y (List.mem_cons_of_mem x hy)
    rw [show sortList (x :: rest) = sortKeysRec x :: sortList rest from by
      simp [sortList]]
    simp [pyEqList, hx, hr]

theorem noDupElems_of_mem {xs : List PyVal} {x : PyVal}
    (hs : noDupElems xs = true) (hm : x ∈ xs) : noDupKeys x = true := by
  induction xs with
  | nil => simp at hm
  | cons y rest ih =>
    simp [noDupElems] at hs
    rcases List.mem_cons.mp hm with hh | hh
    · subst hh; exact hs.1
    · exact ih hs.2 hh

theorem sizeOf_lookup_lt {l : List (String × PyVal)} {k : String} {v : PyVal}
    (h : lookupKv l k = some v) : sizeOf v < sizeOf l := by
  have hm := mem_of_lookupKv h
  have h1 : sizeOf ((k, v) : String × PyVal) < sizeOf l := List.sizeOf_lt_of_mem hm
  have h2 : sizeOf v < sizeOf ((k, v) : String × PyVal) := by
    simp [Prod.mk.sizeOf_spec]
  omega

theorem pyEq_sortKeysRec_aux :
    ∀ n (v : PyVal), sizeOf v ≤ n → noDupKeys v = true →
      pyEq (sortKeysRec v) v = true := by
  intro n
  induction n using Nat.strong_induction_on with
  | _ n ihn =>
  have ih : ∀ (w : PyVal), sizeOf w < n → noDupKeys w = true →
      pyEq (sortKeysRec w) w = true := by
    intro w hw hnd
    exact ihn (sizeOf w) hw w le_rfl hnd
  intro v hn h
  match v with
  | .null => simp [sortKeysRec, pyEq]
  | .bool b => simp [sortKeysRec, pyEq]
  | .num i => simp [sortKeysRec, pyEq]
  | .str s => simp [sortKeysRec, pyEq]
  | .obj t => simp [sortKeysRec, pyEq]
  | .list xs =>
    simp only [sortKeysRec, pyEq]
    apply pyEqList_of_forall
    intro x hx
    have hsz : sizeOf x < sizeOf (PyVal.list xs) := by
      have := List.sizeOf_lt_of_mem hx
      simp only [PyVal.list.sizeOf_spec]
      omega
    have hx2 : noDupKeys x = true := by
      simp only [noDupKeys] at h
      exact noDupElems_of_mem h hx
    exact ih x (by omega) hx2
  | .dict kvs =>
    simp only [sortKeysRec, pyEq, Bool.and_eq_true]
    simp only [noDupKeys, Bool.and_eq_true] at h
    constructor
    · simp [length_sortByKey, length_sortKvs]
    · rw [pyEqDictSub_eq_all]
      intro kv hm
      rw [mem_sortByKey, mem_sortKvs] at hm
      obtain ⟨v0, hm0, hv0⟩ := hm
      have hlk : lookupKv kvs kv.1 = some v0 := lookupKv_of_mem_distinct h.1 hm0
      rw [pyEqLookup_eq, hlk, hv0]
      have hsz : sizeOf v0 < sizeOf (PyVal.dict kvs) := by
        have := sizeOf_lookup_lt hlk
        simp only [PyVal.dict.sizeOf_spec]
        omega
      exact ih v0 (by omega) (noDupVals_of_mem h.2 hm0)

/-- A JSON value compares Python-equal (`==`) to its `sort_keys=True` dump/load
round trip, provided its dicts have unique keys at every level — which is true
of every dict a Python program can hold. -/
theorem pyEq_sortKeysRec (v : PyVal) (h : noDupKeys v = true) :
    pyEq (sortKeysRec v) v = true :=
  pyEq_sortKeysRec_aux (sizeOf v) v le_rfl h

/-! ### Operation-level lemmas -/

theorem json_load_of_structurallyCorrupt {fd : FileData}
    (h : structurallyCorrupt fd = true) : json_load fd = .error .corruptStore := by
  match fd with
  | .garbage => rfl
  | .blank => simp [structurallyCorrupt] at h
  | .jsonFile v =>
    match v with
    | .null | .bool _ | .num _ | .str _ | .list _ | .obj _ =>
      simp [json_load, loadNormalize]
    | .dict kvs =>
      simp only [structurallyCorrupt] at h
      cases hlk : lookupKv kvs "credentials" with
      | none => rw [hlk] at h; simp at h
      | some c =>
        rw [hlk] at h
        simp only [json_load, loadNormalize]
        have h1 : lookupKv (setdefault kvs "_meta" (.dict [])) "credentials"
            = some c := by
          rw [lookupKv_setdefault_other _ _ _ _ (by decide), hlk]
        have h2 : lookupKv (setdefault (setdefault kvs "_meta" (.dict []))
            "credentials" (.dict [])) "credentials" = some c := by
          rw [lookupKv_setdefault_self]
          simp [h1]
        rw [h2]
        match c, h with
        | .null, _ | .bool _, _ | .num _, _ | .str _, _ | .list _, _ | .obj _, _ => rfl

theorem read_store_state {autoCreate : Bool} {now : Int} {st st1 : Option FileData}
    {r : Except StoreErr PyVal} (h : read_store autoCreate now st = (st1, r)) :
    st = none ∨ st1 = st := by
  match st with
  | none => exact Or.inl rfl
  | some fd =>
    simp [read_store] at h
    exact Or.inr h.1.symm

/-- Reading a record back from a document just written with
`json.dumps(..., sort_keys=True)`: `get` returns the recursively sorted form
of the record that was stored. -/
theorem getOp_after_write
    (autoCreate : Bool) (now2 : Int) (key : String)
    (storeKvs2 mk2 ck2 rkvs : List (String × PyVal))
    (hdk : distinctKeys storeKvs2 = true)
    (hmeta : lookupKv storeKvs2 "_meta" = some (.dict mk2))
    (hcred : lookupKv storeKvs2 "credentials" = some (.dict ck2))
    (hdc : distinctKeys ck2 = true)
    (hrec : lookupKv ck2 key = some (.dict rkvs)) :
    getOp autoCreate now2 key none (some (.jsonFile (sortKeysRec (.dict storeKvs2)))) =
      (some (.jsonFile (sortKeysRec (.dict storeKvs2))),
       .ok (some (.dict (sortByKey (sortKvs rkvs))))) := by
  have hS : sortKeysRec (.dict storeKvs2) = .dict (sortByKey (sortKvs storeKvs2)) := by
    simp [sortKeysRec]
  have hLm : lookupKv (sortByKey (sortKvs storeKvs2)) "_meta"
      = some (sortKeysRec (.dict mk2)) := by
    rw [lookupKv_sorted _ _ hdk, hmeta]
    rfl
  have hLc : lookupKv (sortByKey (sortKvs storeKvs2)) "credentials"
      = some (.dict (sortByKey (sortKvs ck2))) := by
    rw [lookupKv_sorted _ _ hdk, hcred]
    simp [sortKeysRec]
  have hLk : lookupKv (sortByKey (sortKvs ck2)) key
      = some (.dict (sortByKey (sortKvs rkvs))) := by
    rw [lookupKv_sorted _ _ hdc, hrec]
    simp [sortKeysRec]
  have hload : json_load (.jsonFile (sortKeysRec (.dict storeKvs2)))
      = .ok (.dict (sortByKey (sortKvs storeKvs2))) := by
    rw [hS]
    simp only [json_load, loadNormalize]
    have hsd1 : setdefault (sortByKey (sortKvs storeKvs2)) "_meta" (.dict [])
        = sortByKey (sortKvs storeKvs2) := by
      simp [setdefault, hasKeyB, hLm]
    rw [hsd1]
    have hsd2 : setdefault (sortByKey (sortKvs storeKvs2)) "credentials" (.dict [])
        = sortByKey (sortKvs storeKvs2) := by
      simp [setdefault, hasKeyB, hLc]
    rw [hsd2, hLc]
  simp only [getOp, read_store, hload]
  have hgc : getCredsD (.dict (sortByKey (sortKvs storeKvs2)))
      = sortByKey (sortKvs ck2) := by
    simp [getCredsD, hLc]
  rw [hgc, hLk]
  rfl

/-- Characterisation of a successful `upsert`: the resulting on-disk document,
the record it returns, and what a subsequent `get` of the same key reads back. -/
theorem upsert_success
    (autoCreate : Bool) (now now2 : Int) (key : String) (fields : PyVal)
    (overwrite : Bool) (st st1 : Option FileData)
    (storeKvs metaKvs credsKvs : List (String × PyVal)) (cA : PyVal)
    (hread : read_store autoCreate now st = (st1, .ok (.dict storeKvs)))
    (hmeta : lookupKv storeKvs "_meta" = some (.dict metaKvs))
    (hcred : lookupKv storeKvs "credentials" = some (.dict credsKvs))
    (hdk : distinctKeys storeKvs = true)
    (hdc : distinctKeys credsKvs = true)
    (hfd : fields.isDict = true)
    (hser : serializable fields = true)
    (hov : hasKeyB credsKvs key = false ∨ overwrite = true)
    (hcA : (lookupKv credsKvs key = none ∧ cA = .num now) ∨
           (∃ rkvs, lookupKv credsKvs key = some (.dict rkvs) ∧
              serializable cA = true ∧
              (lookupKv rkvs "created_at" = some cA ∨
               (lookupKv rkvs "created_at" = none ∧ cA = .num now)))) :
    upsert autoCreate now key fields overwrite st =
      (some (.jsonFile (sortKeysRec
         (upsertDoc storeKvs metaKvs credsKvs key (upsertRecord cA now fields) now))),
       .ok (some (sortKeysRec (upsertRecord cA now fields)))) ∧
    getOp autoCreate now2 key none
        (some (.jsonFile (sortKeysRec
          (upsertDoc storeKvs metaKvs credsKvs key (upsertRecord cA now fields) now)))) =
      (some (.jsonFile (sortKeysRec
         (upsertDoc storeKvs metaKvs credsKvs key (upsertRecord cA now fields) now))),
       .ok (some (sortKeysRec (upsertRecord cA now fields)))) := by
  have hgc : getCredsD (.dict storeKvs) = credsKvs := by
    simp [getCredsD, hcred]
  have hovr : (hasKeyB credsKvs key && !overwrite) = false := by
    rcases hov with h | h
    · simp [h]
    · simp [h]
  have hserA : serializable cA = true := by
    rcases hcA with ⟨_, hc⟩ | ⟨rkvs, _, hs, _⟩
    · subst hc; simp [serializable]
    · exact hs
  have hrecser : serializable (upsertRecord cA now fields) = true := by
    simp [upsertRecord, serializable, serKvs, hserA, hser]
  obtain ⟨exKvs, hex, hca⟩ :
      ∃ exKvs, (lookupKv credsKvs key).getD (.dict []) = .dict exKvs ∧
        (lookupKv exKvs "created_at").getD (.num now) = cA := by
    rcases hcA with ⟨hnone, hc⟩ | ⟨rkvs, hsome, _, hcr⟩
    · exact ⟨[], by simp [hnone], by simp [lookupKv, hc]⟩
    · refine ⟨rkvs, by simp [hsome], ?_⟩
      rcases hcr with h | ⟨h1, h2⟩
      · simp [h]
      · simp [h1, h2]
  have hm1 : lookupKv
      (dictSet storeKvs "credentials"
        (.dict (dictSet credsKvs key (upsertRecord cA now fields)))) "_meta"
      = some (.dict metaKvs) := by
    rw [lookupKv_dictSet_other _ _ _ _ (by decide)]
    exact hmeta
  have hstep : upsert autoCreate now key fields overwrite st =
      getOp autoCreate now key none
        (some (.jsonFile (sortKeysRec
          (upsertDoc storeKvs metaKvs credsKvs key (upsertRecord cA now fields) now)))) := by
    rw [upsert]
    rw [hread]
    simp only [upsertRecord] at hrecser hm1
    simp only [hfd, Bool.not_true, Bool.false_eq_true, if_false, hgc, hovr, hex,
      hca, hrecser, hm1, upsertDoc, upsertRecord]
  have hget := getOp_after_write autoCreate now2 key
    (dictSet
      (dictSet storeKvs "credentials"
        (.dict (dictSet credsKvs key (upsertRecord cA now fields))))
      "_meta" (.dict (dictSet metaKvs "updated_at" (.num now))))
    (dictSet metaKvs "updated_at" (.num now))
    (dictSet credsKvs key (upsertRecord cA now fields))
    [("created_at", cA), ("updated_at", .num now), ("fields", fields)]
    (distinctKeys_dictSet _ _ _ (distinctKeys_dictSet _ _ _ hdk))
    (lookupKv_dictSet_self _ _ _)
    (by
      rw [lookupKv_dictSet_other _ _ _ _ (by decide)]
      exact lookupKv_dictSet_self _ _ _)
    (distinctKeys_dictSet _ _ _ hdc)
    (by
      have := lookupKv_dictSet_self credsKvs key (upsertRecord cA now fields)
      rw [this]
      rfl)
  have hget2 := getOp_after_write autoCreate now key
    (dictSet
      (dictSet storeKvs "credentials"
        (.dict (dictSet credsKvs key (upsertRecord cA now fields))))
      "_meta" (.dict (dictSet metaKvs "updated_at" (.num now))))
    (dictSet metaKvs "updated_at" (.num now))
    (dictSet credsKvs key (upsertRecord cA now fields))
    [("created_at", cA), ("updated_at", .num now), ("fields", fields)]
    (distinctKeys_dictSet _ _ _ (distinctKeys_dictSet _ _ _ hdk))
    (lookupKv_dictSet_self _ _ _)
    (by
      rw [lookupKv_dictSet_other _ _ _ _ (by decide)]
      exact lookupKv_dictSet_self _ _ _)
    (distinctKeys_dictSet _ _ _ hdc)
    (by
      have := lookupKv_dictSet_self credsKvs key (upsertRecord cA now fields)
      rw [this]
      rfl)
  constructor
  · rw [hstep]
    rw [show sortKeysRec (upsertRecord cA now fields)
        = .dict (sortByKey (sortKvs
            [("created_at", cA), ("updated_at", .num now), ("fields", fields)])) from by
      simp [upsertRecord, sortKeysRec]]
    exact hget2
  · rw [show sortKeysRec (upsertRecord cA now fields)
        = .dict (sortByKey (sortKvs
            [("created_at", cA), ("updated_at", .num now), ("fields", fields)])) from by
      simp [upsertRecord, sortKeysRec]]
    exact hget

/-! ### Claim theorems -/

/-- Claim C1, counterexample: the claim covers the vault's `save_credentials`
write as well, but `CredentialVault._write` writes the ciphertext straight to
the destination with `Path.write_bytes`; interrupting it just after the file
is truncated leaves the destination holding a half-written document (here:
empty) that is neither the old contents "OLD" nor the new payload "NEW". -/
theorem C1_counterexample : ¬ C1claim := by
  intro h
  have hmem : FsView.mk (some "") none ∈ plainWriteStates (some "OLD") "NEW" := by
    decide
  have := h.2 (some "OLD") "NEW" ⟨some "", none⟩ hmem
  rcases this with h1 | h1 <;> simp at h1

/-- Claim C1, amended: the atomicity guarantee holds for the plaintext store's
writer `_atomic_write_json` (every `upsert`/`delete` write): at every
observable state during the write the destination holds either exactly its
previous bytes or the complete new payload.  The vault's `_write` gives no
such guarantee (see the counterexample). -/
theorem C1_amended_store_writer_atomic : writerAtomic atomicWriteStates := by
  intro old payload s hs
  simp only [atomicWriteStates, List.mem_cons, List.mem_append, List.mem_map,
    List.mem_range, List.not_mem_nil, or_false] at hs
  rcases hs with h | ⟨⟨i, _, h⟩ | h | h⟩ <;> subst_eqs <;> simp

theorem C1_amended_store_writer_atomic_witness :
    (FsView.mk (some "A") none ∈ atomicWriteStates (some "A") "B") ∧
    ((FsView.mk (some "A") none).dest = some "A" ∨
     (FsView.mk (some "A") none).dest = some "B") :=
  ⟨by decide, C1_amended_store_writer_atomic (some "A") "B" ⟨some "A", none⟩ (by decide)⟩

/-- Claim C4, counterexample: two saves to the same path at different times
restamp `metadata.created_at` — `save_credentials` rebuilds the metadata
mapping with `datetime.utcnow().isoformat()` on every call, so the second
save's `created_at` is the second timestamp, not the first. -/
theorem C4_counterexample : ¬ C4claim := by
  intro h
  have := h 0 "p" "T1" "T2" .null .null none
    (some (.token 0 (.dict [("p", .dict [("secrets", PyVal.null),
      ("metadata", .dict [("created_at", .str "T1")])])])))
    (some (.token 0 (.dict [("p", .dict [("secrets", PyVal.null),
      ("metadata", .dict [("created_at", .str "T2")])])])))
    rfl rfl
  rw [show entryCreatedAt 0 "p" (some (.token 0 (.dict [("p", .dict
      [("secrets", PyVal.null),
       ("metadata", .dict [("created_at", .str "T2")])])]))) = some (.str "T2")
    from rfl] at this
  rw [show entryCreatedAt 0 "p" (some (.token 0 (.dict [("p", .dict
      [("secrets", PyVal.null),
       ("metadata", .dict [("created_at", .str "T1")])])]))) = some (.str "T1")
    from rfl] at this
  simp at this

/-- Claim C4, amended: `save_credentials` stamps `metadata.created_at` with
the *current* time on every save (not only the first; an earlier stamp is
overwritten), and caller-supplied metadata is layered on top, so a
caller-supplied `created_at` overrides the stamp. -/
theorem C4_amended_created_at_restamped (key : Nat) (now path : String)
    (secrets : PyVal) (md : List (String × PyVal)) (st : Option CipherText)
    (dkvs : List (String × PyVal))
    (hload : vaultLoad key st = .ok (.dict dkvs))
    (hmd : distinctKeys md = true) :
    ∃ st2, save_credentials key now path secrets (some md) st = .ok st2 ∧
      entryCreatedAt key path st2 =
        some ((lookupKv md "created_at").getD (.str now)) := by
  have hsave : save_credentials key now path secrets (some md) st =
      .ok (some (.token key (.dict (dictSet dkvs path
        (.dict [("secrets", secrets),
          ("metadata", .dict (dictUpdateAll [("created_at", .str now)] md))]))))) := by
    rw [save_credentials, hload]
    rfl
  refine ⟨_, hsave, ?_⟩
  have hca : lookupKv (dictUpdateAll [("created_at", .str now)] md) "created_at"
      = some ((lookupKv md "created_at").getD (.str now)) := by
    rw [lookupKv_dictUpdateAll _ _ _ hmd]
    cases hmd2 : lookupKv md "created_at" with
    | some v => simp
    | none => simp [lookupKv]
  simp [entryCreatedAt, vaultLoad, decrypt, lookupKv_dictSet_self, lookupKv, hca]

theorem C4_amended_created_at_restamped_witness :
    vaultLoad 7 none = .ok (.dict []) ∧
    distinctKeys [("env", .str "prod")] = true ∧
    (∃ st2, save_credentials 7 "T9" "svc" .null (some [("env", .str "prod")]) none
        = .ok st2 ∧
      entryCreatedAt 7 "svc" st2 =
        some ((lookupKv [("env", .str "prod")] "created_at").getD (.str "T9"))) :=
  ⟨rfl, rfl,
   C4_amended_created_at_restamped 7 "T9" "svc" .null [("env", .str "prod")] none []
     rfl rfl⟩

/-- Claim C5 (confirmed): a vault file whose bytes are not a valid
authenticated ciphertext under the loaded key makes both `load_credentials`
and `list_paths` fail with the distinct decryption failure
(`cryptography.fernet.InvalidToken`); neither returns an empty vault, an
empty path list, or any secrets. -/
theorem C5_decryption_failure_surfaces (key : Nat) (c : CipherText) (path : String)
    (h : decrypt key c = none) :
    load_credentials key path (some c) = .error .decryptionFailed ∧
    list_paths key (some c) = .error .decryptionFailed := by
  constructor
  · rw [load_credentials]
    simp [vaultLoad, h]
  · rw [list_paths]
    simp [vaultLoad, h]

theorem C5_decryption_failure_surfaces_witness :
    decrypt 0 (.junk "tampered") = none ∧
    load_credentials 0 "db/prod" (some (.junk "tampered")) = .error .decryptionFailed ∧
    list_paths 0 (some (.junk "tampered")) = .error .decryptionFailed :=
  ⟨rfl,
   (C5_decryption_failure_surfaces 0 (.junk "tampered") "db/prod" rfl).1,
   (C5_decryption_failure_surfaces 0 (.junk "tampered") "db/prod" rfl).2⟩

/-- Claim C9 (confirmed): after a successful `save_credentials(path, secrets)`,
a fresh `CredentialVault` built over the same key file (so the same key) and
the written vault file returns from `load_credentials(path)` exactly the
`secrets` mapping that was saved, entry for entry. -/
theorem C9_vault_roundtrip (keyFile : Option Nat) (key : Nat) (now path : String)
    (secrets : PyVal) (md : Option (List (String × PyVal)))
    (st : Option CipherText) (dkvs : List (String × PyVal))
    (_hinit1 : vaultInit keyFile = .ok key)
    (_hinit2 : vaultInit keyFile = .ok key)
    (hload : vaultLoad key st = .ok (.dict dkvs)) :
    ∃ st2, save_credentials key now path secrets md st = .ok st2 ∧
      load_credentials key path st2 = .ok secrets := by
  have hsave : save_credentials key now path secrets md st =
      .ok (some (.token key (.dict (dictSet dkvs path
        (.dict [("secrets", secrets),
          ("metadata", .dict (dictUpdateAll [("created_at", .str now)]
            (md.getD [])))]))))) := by
    rw [save_credentials, hload]
    rfl
  refine ⟨_, hsave, ?_⟩
  rw [load_credentials]
  simp [vaultLoad, decrypt, lookupKv_dictSet_self, lookupKv]

theorem C9_vault_roundtrip_witness :
    vaultInit (some 3) = .ok 3 ∧
    vaultLoad 3 none = .ok (.dict []) ∧
    (∃ st2, save_credentials 3 "T0" "svc/prod"
        (.dict [("user", .str "a"), ("pw", .str "x")]) none none = .ok st2 ∧
      load_credentials 3 "svc/prod" st2 =
        .ok (.dict [("user", .str "a"), ("pw", .str "x")])) :=
  ⟨rfl, rfl,
   C9_vault_roundtrip (some 3) 3 "T0" "svc/prod"
     (.dict [("user", .str "a"), ("pw", .str "x")]) none none [] rfl rfl rfl⟩

/-- Claim C10 (confirmed, implicit): `upsert` rejects any `fields` that is not
a dict — even a JSON-serializable one such as a list — with
`ValueError("fields must be a dict")` raised before `_read_store` runs, so the
backing file is neither read, created, nor written, and the on-disk state is
exactly unchanged. -/
theorem C10_non_dict_fields_rejected (autoCreate : Bool) (now : Int) (key : String)
    (fields : PyVal) (overwrite : Bool) (st : Option FileData)
    (h : fields.isDict = false) :
    upsert autoCreate now key fields overwrite st =
      (st, .error (.valueError "fields must be a dict")) := by
  rw [upsert]
  simp [h]

theorem C10_non_dict_fields_rejected_witness :
    (PyVal.list [.num 1]).isDict = false ∧
    serializable (.list [.num 1]) = true ∧
    upsert true 0 "k" (.list [.num 1]) true none =
      (none, .error (.valueError "fields must be a dict")) :=
  ⟨rfl, rfl, C10_non_dict_fields_rejected true 0 "k" (.list [.num 1]) true none rfl⟩

/-- Claim C2, counterexample: a blank (empty or whitespace-only) backing file
is unparseable as JSON — `json.loads("")` raises — yet `_load_json` carves it
out (`json.loads(raw) if raw.strip() else {}`) and treats it as an empty
document, so `list_keys` succeeds with `[]` instead of failing with
`CorruptStore`. -/
theorem C2_counterexample : ¬ C2claim := by
  intro h
  have := (h true 0 .blank "k" [] [] true false none rfl).1
  rw [show list_keys true 0 (some .blank) = (some .blank, .ok []) from rfl] at this
  simp at this

/-- Claim C2, amended: on every backing file that is *non-blank* unparseable
text or structurally invalid (root not an object, or an existing
`credentials` member not an object), every operation that reads the document
fails with `CorruptStore` and leaves the file byte-for-byte unchanged — the
store never repairs it.  A blank file is the one carve-out: the code reads it
as an empty document (final conjunct). -/
theorem C2_amended_corrupt_reads_fail (autoCreate : Bool) (now : Int)
    (fd : FileData) (key : String) (fkvs patch : List (String × PyVal))
    (overwrite missingOk : Bool) (dflt : Option PyVal)
    (h : structurallyCorrupt fd = true) :
    list_keys autoCreate now (some fd) = (some fd, .error .corruptStore) ∧
    hasOp autoCreate now key (some fd) = (some fd, .error .corruptStore) ∧
    getOp autoCreate now key dflt (some fd) = (some fd, .error .corruptStore) ∧
    requireOp autoCreate now key (some fd) = (some fd, .error .corruptStore) ∧
    upsert autoCreate now key (.dict fkvs) overwrite (some fd) =
      (some fd, .error .corruptStore) ∧
    update_fields autoCreate now key patch (some fd) =
      (some fd, .error .corruptStore) ∧
    deleteOp autoCreate now key missingOk (some fd) =
      (some fd, .error .corruptStore) ∧
    list_keys autoCreate now (some .blank) = (some .blank, .ok []) := by
  have hl := json_load_of_structurallyCorrupt h
  have hr : read_store autoCreate now (some fd) = (some fd, .error .corruptStore) := by
    simp [read_store, hl]
  refine ⟨?_, ?_, ?_, ?_, ?_, ?_, ?_, rfl⟩
  · rw [list_keys, hr]
  · rw [hasOp, hr]
  · rw [getOp, hr]
  · rw [requireOp, getOp, hr]
  · rw [upsert]
    simp only [PyVal.isDict, Bool.not_true, Bool.false_eq_true, if_false]
    rw [hr]
  · rw [update_fields, requireOp, getOp, hr]
  · rw [deleteOp, hr]

theorem C2_amended_corrupt_reads_fail_witness :
    structurallyCorrupt .garbage = true ∧
    list_keys true 0 (some .garbage) = (some .garbage, .error .corruptStore) ∧
    upsert true 0 "k" (.dict []) true (some .garbage) =
      (some .garbage, .error .corruptStore) :=
  ⟨rfl,
   (C2_amended_corrupt_reads_fail true 0 .garbage "k" [] [] true false none rfl).1,
   (C2_amended_corrupt_reads_fail true 0 .garbage "k" [] [] true false none
     rfl).2.2.2.2.1⟩

/-- Claim C3, counterexample: the serializability check runs *after*
`_read_store`, and `_read_store` creates the backing file (via
`_ensure_file_exists`) when it is absent and `auto_create` is set; so an
`upsert` with unserializable `fields` against an absent file fails with the
validation `ValueError` but leaves a freshly created file behind — a file
*was* touched by the failing call. -/
theorem C3_counterexample : ¬ C3claim := by
  intro h
  have := h true 0 "k" (.dict [("x", .obj "o")]) true none rfl rfl
  rw [show upsert true 0 "k" (.dict [("x", .obj "o")]) true none =
      (some (.jsonFile (initialDoc 0)),
       .error (.valueError "fields contains non-JSON-serializable values"))
    from rfl] at this
  simp at this

/-- Claim C3, amended: an `upsert` whose `fields` is a dict that is not JSON
serializable fails with the validation `ValueError` before anything is
written or replaced: whenever the backing file existed, it is byte-for-byte
unchanged; but when it was absent and `auto_create` is set, the read that
precedes validation creates the initial empty document (and nothing more). -/
theorem C3_amended_unserializable_fails (autoCreate : Bool) (now : Int)
    (key : String) (fields : PyVal) (overwrite : Bool) (st st1 : Option FileData)
    (storeKvs : List (String × PyVal))
    (hread : read_store autoCreate now st = (st1, .ok (.dict storeKvs)))
    (hfd : fields.isDict = true)
    (hns : serializable fields = false)
    (hov : hasKeyB (getCredsD (.dict storeKvs)) key = false ∨ overwrite = true)
    (hex : lookupKv (getCredsD (.dict storeKvs)) key = none ∨
           ∃ rkvs, lookupKv (getCredsD (.dict storeKvs)) key = some (.dict rkvs)) :
    upsert autoCreate now key fields overwrite st =
      (st1, .error (.valueError "fields contains non-JSON-serializable values")) ∧
    (st = none ∨ st1 = st) := by
  constructor
  · obtain ⟨exKvs, hexx⟩ : ∃ exKvs,
        (lookupKv (getCredsD (.dict storeKvs)) key).getD (.dict []) = .dict exKvs := by
      rcases hex with h | ⟨rkvs, h⟩
      · exact ⟨[], by simp [h]⟩
      · exact ⟨rkvs, by simp [h]⟩
    have hovr : (hasKeyB (getCredsD (.dict storeKvs)) key && !overwrite) = false := by
      rcases hov with h | h <;> simp [h]
    have hserrec : serializable (.dict [("created_at",
        (lookupKv exKvs "created_at").getD (.num now)), ("updated_at", .num now),
        ("fields", fields)]) = false := by
      simp [serializable, serKvs, hns]
    rw [upsert, hread]
    simp only [hfd, Bool.not_true, Bool.false_eq_true, if_false, hovr, hexx,
      upsertRecord, hserrec, Bool.not_false, if_true]
  · exact read_store_state hread

theorem C3_amended_unserializable_fails_witness :
    read_store true 0 (some (.jsonFile (initialDoc 0))) =
      (some (.jsonFile (initialDoc 0)), .ok (initialDoc 0)) ∧
    serializable (.dict [("x", .obj "o")]) = false ∧
    upsert true 0 "k" (.dict [("x", .obj "o")]) true (some (.jsonFile (initialDoc 0))) =
      (some (.jsonFile (initialDoc 0)),
       .error (.valueError "fields contains non-JSON-serializable values")) ∧
    ((some (FileData.jsonFile (initialDoc 0)) : Option FileData) = none ∨
      (some (FileData.jsonFile (initialDoc 0)) : Option FileData) =
        some (FileData.jsonFile (initialDoc 0))) :=
  ⟨rfl, rfl,
   (C3_amended_unserializable_fails true 0 "k" (.dict [("x", .obj "o")]) true
     (some (.jsonFile (initialDoc 0))) (some (.jsonFile (initialDoc 0)))
     [("_meta", .dict [("created_at", .num 0)]), ("credentials", .dict [])]
     rfl rfl rfl (Or.inr rfl) (Or.inl rfl)).1,
   (C3_amended_unserializable_fails true 0 "k" (.dict [("x", .obj "o")]) true
     (some (.jsonFile (initialDoc 0))) (some (.jsonFile (initialDoc 0)))
     [("_meta", .dict [("created_at", .num 0)]), ("credentials", .dict [])]
     rfl rfl rfl (Or.inr rfl) (Or.inl rfl)).2⟩

/-- Claim C6 (confirmed): for a well-formed store and any valid (dict,
serializable) `fields`, a successful `upsert(key, fields)` followed by
`get(key)` returns a record whose `fields` member is Python-equal (`==`) to
the input `fields`, and whose `created_at` equals the `created_at` of the
record previously stored under `key` when one existed — it is set to the
current time only when the key was absent. -/
theorem C6_upsert_then_get (autoCreate : Bool) (now now2 : Int) (key : String)
    (fkvs : List (String × PyVal)) (st st1 : Option FileData)
    (storeKvs metaKvs credsKvs : List (String × PyVal)) (cA : PyVal)
    (hread : read_store autoCreate now st = (st1, .ok (.dict storeKvs)))
    (hmeta : lookupKv storeKvs "_meta" = some (.dict metaKvs))
    (hcred : lookupKv storeKvs "credentials" = some (.dict credsKvs))
    (hdk : distinctKeys storeKvs = true)
    (hdc : distinctKeys credsKvs = true)
    (hser : serKvs fkvs = true)
    (hnd : noDupKeys (.dict fkvs) = true)
    (hcA : (lookupKv credsKvs key = none ∧ cA = .num now) ∨
           (∃ rkvs x, lookupKv credsKvs key = some (.dict rkvs) ∧
              lookupKv rkvs "created_at" = some cA ∧ cA = .num x)) :
    ∃ st2 rec rkvs2,
      upsert autoCreate now key (.dict fkvs) true st = (st2, .ok (some rec)) ∧
      getOp autoCreate now2 key none st2 = (st2, .ok (some rec)) ∧
      rec = .dict rkvs2 ∧
      (∃ fv, lookupKv rkvs2 "fields" = some fv ∧ pyEq fv (.dict fkvs) = true) ∧
      lookupKv rkvs2 "created_at" = some cA := by
  have hcA2 : (lookupKv credsKvs key = none ∧ cA = .num now) ∨
      (∃ rkvs, lookupKv credsKvs key = some (.dict rkvs) ∧ serializable cA = true ∧
        (lookupKv rkvs "created_at" = some cA ∨
         (lookupKv rkvs "created_at" = none ∧ cA = .num now))) := by
    rcases hcA with h | ⟨rkvs, x, h1, h2, h3⟩
    · exact Or.inl h
    · exact Or.inr ⟨rkvs, h1, by subst h3; simp [serializable], Or.inl h2⟩
  obtain ⟨x, hx⟩ : ∃ x : Int, cA = .num x := by
    rcases hcA with ⟨_, h⟩ | ⟨_, x, _, _, h⟩
    · exact ⟨now, h⟩
    · exact ⟨x, h⟩
  have hmain := upsert_success autoCreate now now2 key (.dict fkvs) true st st1
    storeKvs metaKvs credsKvs cA hread hmeta hcred hdk hdc rfl
    (by simp [serializable, hser]) (Or.inr rfl) hcA2
  have hdrec : distinctKeys [("created_at", cA), ("updated_at", .num now),
      ("fields", PyVal.dict fkvs)] = true := rfl
  refine ⟨_, _,
    sortByKey (sortKvs [("created_at", cA), ("updated_at", .num now),
      ("fields", .dict fkvs)]),
    hmain.1, hmain.2, by simp [upsertRecord, sortKeysRec], ?_, ?_⟩
  · refine ⟨sortKeysRec (.dict fkvs), ?_, pyEq_sortKeysRec _ hnd⟩
    rw [lookupKv_sorted _ _ hdrec]
    rfl
  · rw [lookupKv_sorted _ _ hdrec]
    subst hx
    rfl

theorem C6_upsert_then_get_witness :
    read_store true 5 none =
      (some (.jsonFile (initialDoc 5)),
       .ok (.dict [("_meta", .dict [("created_at", .num 5)]),
                   ("credentials", .dict [])])) ∧
    (∃ st2 rec rkvs2,
      upsert true 5 "svc/prod" (.dict [("user", .str "a"), ("pw", .str "x")])
        true none = (st2, .ok (some rec)) ∧
      getOp true 6 "svc/prod" none st2 = (st2, .ok (some rec)) ∧
      rec = .dict rkvs2 ∧
      (∃ fv, lookupKv rkvs2 "fields" = some fv ∧
        pyEq fv (.dict [("user", .str "a"), ("pw", .str "x")]) = true) ∧
      lookupKv rkvs2 "created_at" = some (.num 5)) :=
  ⟨rfl,
   C6_upsert_then_get true 5 6 "svc/prod" [("user", .str "a"), ("pw", .str "x")]
     none (some (.jsonFile (initialDoc 5)))
     [("_meta", .dict [("created_at", .num 5)]), ("credentials", .dict [])]
     [("created_at", .num 5)] [] (.num 5)
     rfl rfl rfl rfl rfl rfl rfl (Or.inl ⟨rfl, rfl⟩)⟩

/-- Claim C7 (confirmed): when `key` is already present in the store,
`upsert(key, fields, overwrite=False)` fails with `AlreadyExists` and
performs no write — the on-disk document (and so the stored record) is
byte-for-byte unchanged. -/
theorem C7_upsert_no_overwrite (autoCreate : Bool) (now : Int) (key : String)
    (fields : PyVal) (fd : FileData) (storeKvs : List (String × PyVal))
    (hload : json_load fd = .ok (.dict storeKvs))
    (hfd : fields.isDict = true)
    (hkey : hasKeyB (getCredsD (.dict storeKvs)) key = true) :
    upsert autoCreate now key fields false (some fd) =
      (some fd, .error .alreadyExists) := by
  rw [upsert]
  rw [show read_store autoCreate now (some fd) = (some fd, .ok (.dict storeKvs))
    from by simp [read_store, hload]]
  simp [hfd, hkey]

theorem C7_upsert_no_overwrite_witness :
    upsert true 0 "k" (.dict [("a", .num 1)]) false none =
      (some (FileData.jsonFile (.dict
        [("_meta", .dict [("created_at", .num 0), ("updated_at", .num 0)]),
         ("credentials", .dict [("k", .dict [("created_at", .num 0),
           ("fields", .dict [("a", .num 1)]), ("updated_at", .num 0)])])])),
       .ok (some (.dict [("created_at", .num 0),
         ("fields", .dict [("a", .num 1)]), ("updated_at", .num 0)]))) ∧
    upsert true 1 "k" (.dict [("b", .num 2)]) false
      (some (FileData.jsonFile (.dict
        [("_meta", .dict [("created_at", .num 0), ("updated_at", .num 0)]),
         ("credentials", .dict [("k", .dict [("created_at", .num 0),
           ("fields", .dict [("a", .num 1)]), ("updated_at", .num 0)])])]))) =
      (some (FileData.jsonFile (.dict
        [("_meta", .dict [("created_at", .num 0), ("updated_at", .num 0)]),
         ("credentials", .dict [("k", .dict [("created_at", .num 0),
           ("fields", .dict [("a", .num 1)]), ("updated_at", .num 0)])])])),
       .error .alreadyExists) ∧
    getOp true 2 "k" none
      (some (FileData.jsonFile (.dict
        [("_meta", .dict [("created_at", .num 0), ("updated_at", .num 0)]),
         ("credentials", .dict [("k", .dict [("created_at", .num 0),
           ("fields", .dict [("a", .num 1)]), ("updated_at", .num 0)])])]))) =
      (some (FileData.jsonFile (.dict
        [("_meta", .dict [("created_at", .num 0), ("updated_at", .num 0)]),
         ("credentials", .dict [("k", .dict [("created_at", .num 0),
           ("fields", .dict [("a", .num 1)]), ("updated_at", .num 0)])])])),
       .ok (some (.dict [("created_at", .num 0),
         ("fields", .dict [("a", .num 1)]), ("updated_at", .num 0)]))) ∧
    recFieldsLookup (.dict [("created_at", .num 0),
      ("fields", .dict [("a", .num 1)]), ("updated_at", .num 0)]) "a" =
      some (.num 1) :=
  ⟨rfl,
   C7_upsert_no_overwrite true 1 "k" (.dict [("b", .num 2)])
     (FileData.jsonFile (.dict
       [("_meta", .dict [("created_at", .num 0), ("updated_at", .num 0)]),
        ("credentials", .dict [("k", .dict [("created_at", .num 0),
          ("fields", .dict [("a", .num 1)]), ("updated_at", .num 0)])])]))
     [("_meta", .dict [("created_at", .num 0), ("updated_at", .num 0)]),
      ("credentials", .dict [("k", .dict [("created_at", .num 0),
        ("fields", .dict [("a", .num 1)]), ("updated_at", .num 0)])])]
     rfl rfl rfl,
   rfl, rfl⟩

/-- Claim C8 (confirmed): `update_fields(key, patch)` on a present key performs
a shallow merge — in the resulting record's `fields`, every key of `patch`
maps to its patch value, and every key of the prior `fields` not named in
`patch` keeps its prior value (both modulo the `sort_keys=True` re-rendering
the store applies on write, which is Python-equal to the original); on an
absent key it fails with `NotFound`. -/
theorem C8_update_fields_shallow_merge
    (autoCreate : Bool) (now : Int) (key : String) (patch : List (String × PyVal))
    (fd : FileData) (storeKvs metaKvs credsKvs : List (String × PyVal))
    (hload : json_load fd = .ok (.dict storeKvs))
    (hmeta : lookupKv storeKvs "_meta" = some (.dict metaKvs))
    (hcred : lookupKv storeKvs "credentials" = some (.dict credsKvs))
    (hdk : distinctKeys storeKvs = true)
    (hdc : distinctKeys credsKvs = true) :
    (lookupKv credsKvs key = none →
      update_fields autoCreate now key patch (some fd) =
        (some fd, .error .notFound)) ∧
    (∀ rkvs fkvs0 x,
      lookupKv credsKvs key = some (.dict rkvs) →
      lookupKv rkvs "fields" = some (.dict fkvs0) →
      lookupKv rkvs "created_at" = some (.num x) →
      distinctKeys fkvs0 = true → distinctKeys patch = true →
      serKvs fkvs0 = true → serKvs patch = true →
      ∃ st2 rec,
        update_fields autoCreate now key patch (some fd) = (st2, .ok (some rec)) ∧
        (∀ k v, lookupKv patch k = some v →
          recFieldsLookup rec k = some (sortKeysRec v)) ∧
        (∀ k, lookupKv patch k = none →
          recFieldsLookup rec k = Option.map sortKeysRec (lookupKv fkvs0 k))) := by
  have hread : read_store autoCreate now (some fd) = (some fd, .ok (.dict storeKvs)) := by
    simp [read_store, hload]
  have hgc : getCredsD (.dict storeKvs) = credsKvs := by
    simp [getCredsD, hcred]
  constructor
  · intro habs
    rw [update_fields, requireOp, getOp, hread]
    simp [hgc, habs]
  · intro rkvs fkvs0 x hrk hf hc hdf hdp hsf hsp
    have hrequire : requireOp autoCreate now key (some fd) =
        (some fd, .ok (.dict rkvs)) := by
      rw [requireOp, getOp, hread]
      simp [hgc, hrk, deepCopy]
    have hser2 : serKvs (dictUpdateAll fkvs0 patch) = true :=
      serKvs_dictUpdateAll hsf hsp
    have hmain := upsert_success autoCreate now now key
      (.dict (dictUpdateAll fkvs0 patch)) true (some fd) (some fd)
      storeKvs metaKvs credsKvs (.num x) hread hmeta hcred hdk hdc rfl
      (by simp [serializable, hser2]) (Or.inr rfl)
      (Or.inr ⟨rkvs, hrk, by simp [serializable], Or.inl hc⟩)
    have hupd : update_fields autoCreate now key patch (some fd) =
        upsert autoCreate now key (.dict (dictUpdateAll fkvs0 patch)) true (some fd) := by
      rw [update_fields, hrequire]
      simp [hf]
    have hdrec : distinctKeys [("created_at", PyVal.num x), ("updated_at", .num now),
        ("fields", PyVal.dict (dictUpdateAll fkvs0 patch))] = true := rfl
    have hRFL : ∀ k, recFieldsLookup (sortKeysRec (upsertRecord (.num x) now
        (.dict (dictUpdateAll fkvs0 patch)))) k =
        Option.map sortKeysRec (lookupKv (dictUpdateAll fkvs0 patch) k) := by
      intro k
      rw [show sortKeysRec (upsertRecord (.num x) now
            (.dict (dictUpdateAll fkvs0 patch)))
          = .dict (sortByKey (sortKvs [("created_at", PyVal.num x),
              ("updated_at", .num now),
              ("fields", .dict (dictUpdateAll fkvs0 patch))])) from by
        simp [upsertRecord, sortKeysRec]]
      rw [recFieldsLookup]
      rw [lookupKv_sorted _ _ hdrec]
      rw [show lookupKv [("created_at", PyVal.num x), ("updated_at", .num now),
          ("fields", .dict (dictUpdateAll fkvs0 patch))] "fields"
          = some (.dict (dictUpdateAll fkvs0 patch)) from rfl]
      rw [show Option.map sortKeysRec (some (PyVal.dict (dictUpdateAll fkvs0 patch)))
          = some (.dict (sortByKey (sortKvs (dictUpdateAll fkvs0 patch)))) from by
        simp [sortKeysRec]]
      exact lookupKv_sorted _ _ (distinctKeys_dictUpdateAll hdf)
    refine ⟨_, _, by rw [hupd]; exact hmain.1, ?_, ?_⟩
    · intro k v hpk
      rw [hRFL k, lookupKv_dictUpdateAll _ _ _ hdp, hpk]
      rfl
    · intro k hpk
      rw [hRFL k, lookupKv_dictUpdateAll _ _ _ hdp, hpk]

theorem C8_update_fields_shallow_merge_witness :
    update_fields true 1 "k" [("b", .num 2)]
      (some (FileData.jsonFile (.dict
        [("_meta", .dict [("created_at", .num 0), ("updated_at", .num 0)]),
         ("credentials", .dict [("k", .dict [("created_at", .num 0),
           ("fields", .dict [("a", .num 1)]), ("updated_at", .num 0)])])]))) =
      (some (FileData.jsonFile (.dict
        [("_meta", .dict [("created_at", .num 0), ("updated_at", .num 1)]),
         ("credentials", .dict [("k", .dict [("created_at", .num 0),
           ("fields", .dict [("a", .num 1), ("b", .num 2)]),
           ("updated_at", .num 1)])])])),
       .ok (some (.dict [("created_at", .num 0),
         ("fields", .dict [("a", .num 1), ("b", .num 2)]),
         ("updated_at", .num 1)]))) ∧
    recFieldsLookup (.dict [("created_at", .num 0),
      ("fields", .dict [("a", .num 1), ("b", .num 2)]),
      ("updated_at", .num 1)]) "a" = some (.num 1) ∧
    recFieldsLookup (.dict [("created_at", .num 0),
      ("fields", .dict [("a", .num 1), ("b", .num 2)]),
      ("updated_at", .num 1)]) "b" = some (.num 2) ∧
    (∀ rkvs fkvs0 x,
      lookupKv [("k", PyVal.dict [("created_at", .num 0),
        ("fields", .dict [("a", .num 1)]), ("updated_at", .num 0)])] "k"
        = some (.dict rkvs) →
      lookupKv rkvs "fields" = some (.dict fkvs0) →
      lookupKv rkvs "created_at" = some (.num x) →
      distinctKeys fkvs0 = true → distinctKeys [("b", PyVal.num 2)] = true →
      serKvs fkvs0 = true → serKvs [("b", PyVal.num 2)] = true →
      ∃ st2 rec,
        update_fields true 1 "k" [("b", .num 2)]
          (some (FileData.jsonFile (.dict
            [("_meta", .dict [("created_at", .num 0), ("updated_at", .num 0)]),
             ("credentials", .dict [("k", .dict [("created_at", .num 0),
               ("fields", .dict [("a", .num 1)]),
               ("updated_at", .num 0)])])]))) = (st2, .ok (some rec)) ∧
        (∀ k v, lookupKv [("b", PyVal.num 2)] k = some v →
          recFieldsLookup rec k = some (sortKeysRec v)) ∧
        (∀ k, lookupKv [("b", PyVal.num 2)] k = none →
          recFieldsLookup rec k =
            Option.map sortKeysRec (lookupKv fkvs0 k))) :=
  ⟨rfl, rfl, rfl,
   (C8_update_fields_shallow_merge true 1 "k" [("b", .num 2)]
     (FileData.jsonFile (.dict
       [("_meta", .dict [("created_at", .num 0), ("updated_at", .num 0)]),
        ("credentials", .dict [("k", .dict [("created_at", .num 0),
          ("fields", .dict [("a", .num 1)]), ("updated_at", .num 0)])])]))
     [("_meta", .dict [("created_at", .num 0), ("updated_at", .num 0)]),
      ("credentials", .dict [("k", .dict [("created_at", .num 0),
        ("fields", .dict [("a", .num 1)]), ("updated_at", .num 0)])])]
     [("created_at", .num 0), ("updated_at", .num 0)]
     [("k", .dict [("created_at", .num 0),
       ("fields", .dict [("a", .num 1)]), ("updated_at", .num 0)])]
     rfl rfl rfl rfl rfl).2⟩
